import Mathlib

/-
Verification of the cross-validation orchestrator
`CrossValidatedTransferError._call` (mvpa/algorithms/cvtranserror.py)
against its natural-language specification.

The engine is shallowly embedded as a pure state-passing function over the
sequence of folds the splitter yields.  External collaborators
(`TransferError`, the state-enablement machinery of `mvpa.misc.state`, the
splitter, the dataset) are modelled at their interfaces as the specification
describes them; everything the engine itself does follows the Python source
of `_call` statement by statement.  Exceptions are modelled with `Except`;
the engine's observable state after the call (returned or raised) is an
explicit `Outcome` record.
-/

namespace CVTE

/-- A dataset partition as the splitter yields it: it carries the last-fold
marker (the `lastsplit` dataset attribute that `_call` reads) and an opaque
tag distinguishing partitions. -/
structure DS where
  lastsplit : Bool
  tag : Nat
deriving DecidableEq

/-- A fold as yielded by the splitter: `(train partition, test partition)`;
either may be absent (Python `None`). -/
abbrev Split := Option DS × Option DS

/-- Modelled from the spec: the dataset interface `_call` uses — per-sample
identifiers `origids`, and a `labels_map` whose access raises when the
mapping is absent (`none`). -/
structure Dataset where
  origids : List Nat
  labels_map : Option Int
deriving DecidableEq

/-- The three child state variables `_call` may temporarily enable on its
TransferError. -/
inductive SV where
  | confusion
  | training_confusion
  | samples_error
deriving DecidableEq

/-- Modelled from the spec (mvpa.misc.state, not in src/): the enablement
bookkeeping of a stateful object — the currently enabled state variables
plus the configuration saved by a pending temporary change. -/
structure StState where
  enabled : List SV
  saved : Option (List SV)
deriving DecidableEq

def addIfAbsent (l : List SV) (x : SV) : List SV :=
  if x ∈ l then l else l ++ [x]

/-- Modelled from the spec: `states._changeTemporarily(enable_states=...)`
saves the prior enablement and enables the requested state variables. -/
def changeTemporarily (st : StState) (new : List SV) : StState :=
  { enabled := new.foldl addIfAbsent st.enabled, saved := some st.enabled }

/-- Modelled from the spec: `states._resetEnabledTemporarily()` restores the
enablement saved by the pending temporary change. -/
def resetEnabledTemporarily (st : StState) : StState :=
  { enabled := st.saved.getD st.enabled, saved := none }

/-- The configuration of one `_call` run: the engine's six state variables,
the `expose_testdataset` option, and whether the classifier has a
`testdataset` attribute (`hasattr(clf, 'testdataset')`, line 142). -/
structure Flags where
  results : Bool
  splits : Bool
  transerrors : Bool
  confusion : Bool
  training_confusion : Bool
  samples_error : Bool
  expose_testdataset : Bool
  clf_hastestdataset : Bool
deriving DecidableEq

/-- `terr_enable` (source lines 135-138): the child state variables to
enable temporarily, collected in the source's order
`['confusion', 'training_confusion', 'samples_error']`. -/
def terrEnable (fl : Flags) : List SV :=
  (if fl.confusion then [SV.confusion] else []) ++
    (if fl.training_confusion then [SV.training_confusion] else []) ++
      (if fl.samples_error then [SV.samples_error] else [])

/-- Modelled from the spec: what one TransferError evaluation
`transerror(split[1], split[0])` produces for a fold — the error value and
the child's per-fold diagnostic states.  Evaluation is a deterministic
function of the fold (the spec's `evaluate(test, train) -> error_value`
interface); a raising evaluation is `Except.error`. -/
structure FoldOut where
  result : Int
  samples_error : List (Nat × Int)
  confusion : Int
  training_confusion : Int
deriving DecidableEq

/-- Identity of a TransferError instance: the engine's own (mother)
instance, or the deep copy created for fold `k`. -/
inductive TEId where
  | mother
  | copyAt (k : Nat)
deriving DecidableEq

/-- Observable record of one fold iteration: the fold, which instance
evaluated it, the `testdataset` slot of the evaluating instance's classifier
at evaluation time, and the value, if any, assigned to the original
classifier's `testdataset` slot before evaluation. -/
structure FoldEv where
  idx : Nat
  split : Split
  usedInstance : TEId
  evalClfTD : Option DS
  attachedTD : Option (Option DS)
deriving DecidableEq

/-- The exceptions `_call` can propagate: a raising fold evaluation, the
`KeyError` of the samples-error merge (lines 207-210), and the
`UnboundLocalError` of the rebind `self.__transerror = transerror`
(line 224) after a zero-iteration loop. -/
inductive RunErr where
  | evalErr (k : Nat)
  | keyErr (k : Nat)
  | unboundLocal
deriving DecidableEq

/-- The part of the run configuration the fold loop reads. -/
structure LoopCfg where
  splitsE : Bool
  transerrorsE : Bool
  samplesE : Bool
  confusionE : Bool
  tconfusionE : Bool
  doExpose : Bool
deriving DecidableEq

def loopCfg (fl : Flags) : LoopCfg :=
  { splitsE := fl.splits,
    transerrorsE := fl.transerrors,
    samplesE := fl.samples_error,
    confusionE := fl.confusion,
    tconfusionE := fl.training_confusion,
    doExpose := fl.clf_hastestdataset && fl.expose_testdataset }

/-- The first present (non-`None`) partition of a fold: the source scans the
split tuple in order and stops at the first non-`None` entry
(lines 170-174). -/
def firstPresent (s : Split) : Option DS :=
  match s.1 with
  | some d => some d
  | none => s.2

/-- Truthiness of the `lastsplit` marker deduced for a fold: the marker of
the first present partition, false when both partitions are absent (the
local stays `None`). -/
def lastsplitOf (s : Split) : Bool :=
  ((firstPresent s).map DS.lastsplit).getD false

/-- Which TransferError instance evaluates fold `k` (source lines 167-183):
with `transerrors` enabled, the mother instance exactly on a fold whose
deduced `lastsplit` marker is true, otherwise a fresh deep copy; with
`transerrors` disabled, always the mother instance. -/
def instId (transerrorsE : Bool) (k : Nat) (s : Split) : TEId :=
  if transerrorsE then
    if lastsplitOf s then TEId.mother else TEId.copyAt k
  else TEId.mother

/-- The mutable state threaded through the fold loop: the local `results`
list, the engine's diagnostic accumulators, the original classifier's
`testdataset` slot, the loop body's `transerror` local variable (instance
identity plus, for a copy, its classifier's copied `testdataset` slot), and
the observable per-fold trace. -/
structure LoopSt where
  idx : Nat
  resultsAcc : List Int
  splitsAcc : List Split
  terrAcc : List TEId
  confAcc : Int
  tconfAcc : Int
  sampErr : List (Nat × List Int)
  motherTD : Option DS
  lastUsed : Option (TEId × Option DS)
  trace : List FoldEv
deriving DecidableEq

/-- `self.states.samples_error[k].append(v)`: appends to the entry of an
existing key and fails (Python `KeyError`) on a missing key — it never adds
a key. -/
def appendSample : List (Nat × List Int) → Nat → Int → Option (List (Nat × List Int))
  | [], _, _ => none
  | (k0, l0) :: rest, k, v =>
    if k0 = k then some ((k0, l0 ++ [v]) :: rest)
    else (appendSample rest k v).map (fun m2 => (k0, l0) :: m2)

/-- The merge loop of source lines 207-210: appends every entry of the
child's per-fold `samples_error` into the engine's accumulator; on the first
missing key it stops with the partially merged accumulator and a failure
flag (the `KeyError`). -/
def mergeSamples : List (Nat × List Int) → List (Nat × Int) → List (Nat × List Int) × Bool
  | m, [] => (m, true)
  | m, (k, v) :: rest =>
    match appendSample m k v with
    | none => (m, false)
    | some m2 => mergeSamples m2 rest

def sampMerge (cfg : LoopCfg) (st : LoopSt) (out : FoldOut) : List (Nat × List Int) × Bool :=
  if cfg.samplesE then mergeSamples st.sampErr out.samples_error else (st.sampErr, true)

/-- The observable event of one fold iteration.  For the mother instance the
evaluating classifier's `testdataset` slot is the original slot after the
optional attach; a deep copy is made before the attach (lines 167-183 come
before lines 186-187), so its classifier carries the pre-attach value. -/
def mkFoldEv (cfg : LoopCfg) (st : LoopSt) (s : Split) : FoldEv :=
  { idx := st.idx,
    split := s,
    usedInstance := instId cfg.transerrorsE st.idx s,
    evalClfTD := if instId cfg.transerrorsE st.idx s = TEId.mother then
        (if cfg.doExpose then s.2 else st.motherTD)
      else st.motherTD,
    attachedTD := if cfg.doExpose then some s.2 else none }

/-- One iteration of the fold loop of `_call` (source lines 161-221):
append the split when `splits` is enabled, pick the evaluating instance,
attach the test partition to the original classifier when exposed, evaluate
(a raising evaluation propagates, leaving the attach in place), detach,
append to `transerrors`, merge the child's per-sample errors (`KeyError` on
a foreign identifier propagates), accumulate the confusions and append the
result.  The harvesting hook (line 198) captures locals into external state
and the `untrain` call (lines 157-158) resets predictor training state;
neither modifies any state modelled here. -/
def foldStep (cfg : LoopCfg) (ev : Split → Except Unit FoldOut) (st : LoopSt) (s : Split) :
    Except (RunErr × LoopSt) LoopSt :=
  match ev s with
  | Except.error _ =>
    Except.error (RunErr.evalErr st.idx,
      { st with
        splitsAcc := if cfg.splitsE then st.splitsAcc ++ [s] else st.splitsAcc,
        motherTD := if cfg.doExpose then s.2 else st.motherTD,
        lastUsed := some (instId cfg.transerrorsE st.idx s, st.motherTD),
        trace := st.trace ++ [mkFoldEv cfg st s] })
  | Except.ok out =>
    if (sampMerge cfg st out).2 then
      Except.ok
        { idx := st.idx + 1,
          resultsAcc := st.resultsAcc ++ [out.result],
          splitsAcc := if cfg.splitsE then st.splitsAcc ++ [s] else st.splitsAcc,
          terrAcc := if cfg.transerrorsE then
              st.terrAcc ++ [instId cfg.transerrorsE st.idx s]
            else st.terrAcc,
          confAcc := if cfg.confusionE then st.confAcc + out.confusion else st.confAcc,
          tconfAcc := if cfg.tconfusionE then st.tconfAcc + out.training_confusion
            else st.tconfAcc,
          sampErr := (sampMerge cfg st out).1,
          motherTD := if cfg.doExpose then none else st.motherTD,
          lastUsed := some (instId cfg.transerrorsE st.idx s, st.motherTD),
          trace := st.trace ++ [mkFoldEv cfg st s] }
    else
      Except.error (RunErr.keyErr st.idx,
        { st with
          splitsAcc := if cfg.splitsE then st.splitsAcc ++ [s] else st.splitsAcc,
          terrAcc := if cfg.transerrorsE then
              st.terrAcc ++ [instId cfg.transerrorsE st.idx s]
            else st.terrAcc,
          sampErr := (sampMerge cfg st out).1,
          motherTD := if cfg.doExpose then none else st.motherTD,
          lastUsed := some (instId cfg.transerrorsE st.idx s, st.motherTD),
          trace := st.trace ++ [mkFoldEv cfg st s] })

/-- The fold loop: process the splitter's folds in order, stopping at the
first propagated exception. -/
def runLoop (cfg : LoopCfg) (ev : Split → Except Unit FoldOut) :
    List Split → LoopSt → Except (RunErr × LoopSt) LoopSt
  | [], st => Except.ok st
  | s :: rest, st =>
    match foldStep cfg ev st s with
    | Except.error e => Except.error e
    | Except.ok st2 => runLoop cfg ev rest st2

/-- The loop state carried by either outcome of the loop. -/
def stOf : Except (RunErr × LoopSt) LoopSt → LoopSt
  | Except.error e => e.2
  | Except.ok st => st

/-- Modelled from the spec: reading `dataset.labels_map` raises when the
mapping is absent. -/
def getLM : Option Int → Except Unit Int
  | some v => Except.ok v
  | none => Except.error ()

/-- The body of the `try` block of source lines 234-238: attach the
dataset's label mapping to each enabled confusion accumulator; a raising
access aborts the block. -/
def attachBlock (confE tconfE : Bool) (lm : Option Int) :
    Except Unit (Option Int × Option Int) := do
  let c ← if confE then do
      let v ← getLM lm
      pure (some v)
    else pure (none : Option Int)
  let tc ← if tconfE then do
      let v ← getLM lm
      pure (some v)
    else pure (none : Option Int)
  pure (c, tc)

/-- Source lines 233-240: the attach block wrapped in
`try: ... except: pass`. -/
def attachLM (confE tconfE : Bool) (lm : Option Int) : Option Int × Option Int :=
  match attachBlock confE tconfE lm with
  | Except.ok p => p
  | Except.error _ => (none, none)

/-- Everything observable after `_call` returns or raises: the returned
value or the propagated exception, the engine's stored TransferError
(identity, enablement bookkeeping, its classifier's `testdataset` slot),
the original instance's state, and the engine's accumulators. -/
structure Outcome where
  result : Except RunErr Int
  teId : TEId
  teSt : StState
  teClfTD : Option DS
  motherSt : StState
  motherTD : Option DS
  resultsAcc : List Int
  statesResults : Option (List Int)
  splitsAcc : List Split
  terrAcc : List TEId
  confAcc : Int
  confLMap : Option Int
  tconfAcc : Int
  tconfLMap : Option Int
  sampErr : List (Nat × List Int)
  trace : List FoldEv

/-- The engine's observable state when `_call` propagates exception `er`:
no restoration has run, and the stored TransferError is still the mother
instance carrying the (possibly overridden) enablement `mSt`. -/
def finishErr (mSt : StState) (er : RunErr) (st : LoopSt) : Outcome :=
  { result := Except.error er,
    teId := TEId.mother,
    teSt := mSt,
    teClfTD := st.motherTD,
    motherSt := mSt,
    motherTD := st.motherTD,
    resultsAcc := st.resultsAcc,
    statesResults := none,
    splitsAcc := st.splitsAcc,
    terrAcc := st.terrAcc,
    confAcc := st.confAcc,
    confLMap := none,
    tconfAcc := st.tconfAcc,
    tconfLMap := none,
    sampErr := st.sampErr,
    trace := st.trace }

/-- Source lines 223-242 after a completed loop: rebind the stored
TransferError to the last used instance (`UnboundLocalError` when the loop
ran zero times), reset the temporarily changed enablement on the rebound
instance, store `results` when enabled (per the StateVariable contract of
the spec), attach the label mapping inside `try/except`, and return the
combined value. -/
def finishOk (fl : Flags) (comb : List Int → Int) (lm : Option Int)
    (mSt : StState) (st : LoopSt) : Outcome :=
  match st.lastUsed with
  | none => finishErr mSt RunErr.unboundLocal st
  | some tu =>
    { result := Except.ok (comb st.resultsAcc),
      teId := tu.1,
      teSt := if (terrEnable fl).isEmpty then mSt else resetEnabledTemporarily mSt,
      teClfTD := if tu.1 = TEId.mother then st.motherTD else tu.2,
      motherSt := if tu.1 = TEId.mother then
          (if (terrEnable fl).isEmpty then mSt else resetEnabledTemporarily mSt)
        else mSt,
      motherTD := st.motherTD,
      resultsAcc := st.resultsAcc,
      statesResults := if fl.results then some st.resultsAcc else none,
      splitsAcc := st.splitsAcc,
      terrAcc := st.terrAcc,
      confAcc := st.confAcc,
      confLMap := (attachLM fl.confusion fl.training_confusion lm).1,
      tconfAcc := st.tconfAcc,
      tconfLMap := (attachLM fl.confusion fl.training_confusion lm).2,
      sampErr := st.sampErr,
      trace := st.trace }

/-- Initial loop state (source lines 126-147): empty accumulators and the
`samples_error` dictionary keyed by `dataset.origids`, each mapped to an
empty list. -/
def initLoopSt (ds : Dataset) (iTD : Option DS) : LoopSt :=
  { idx := 0,
    resultsAcc := [],
    splitsAcc := [],
    terrAcc := [],
    confAcc := 0,
    tconfAcc := 0,
    sampErr := ds.origids.map (fun i => (i, ([] : List Int))),
    motherTD := iTD,
    lastUsed := none,
    trace := [] }

/-- The child TransferError's enablement bookkeeping after the conditional
temporary change of source lines 151-153. -/
def motherSt0 (fl : Flags) (iSt : StState) : StState :=
  if (terrEnable fl).isEmpty then iSt else changeTemporarily iSt (terrEnable fl)

/-- `CrossValidatedTransferError._call` (source lines 119-242) as a function
of the run configuration, the (spec-modelled) fold evaluation, the combiner,
the dataset, the folds the splitter yields, and the child TransferError's
initial enablement bookkeeping and classifier `testdataset` slot.  The
temporary enablement change of lines 151-153 happens before the loop; the
restoration of lines 226-228 and the rebind of line 224 are in `finishOk`
and run only when the loop completes without an exception. -/
def runCVTE (fl : Flags) (ev : Split → Except Unit FoldOut) (comb : List Int → Int)
    (ds : Dataset) (folds : List Split) (iSt : StState) (iTD : Option DS) : Outcome :=
  match runLoop (loopCfg fl) ev folds (initLoopSt ds iTD) with
  | Except.error e => finishErr (motherSt0 fl iSt) e.1 e.2
  | Except.ok st => finishOk fl comb ds.labels_map (motherSt0 fl iSt) st

/-- The error value of a fold's evaluation, defaulted on a raising fold. -/
def dfltResult (ev : Split → Except Unit FoldOut) (s : Split) : Int :=
  match ev s with
  | Except.ok o => o.result
  | Except.error _ => 0

/-- The final fold of a nonempty fold list. -/
def lastFold (folds : List Split) : Split :=
  (folds.getLast?).getD (none, none)

/-- Appending to an existing key never changes the key sequence. -/
theorem appendSample_keys : ∀ (m : List (Nat × List Int)) (k : Nat) (v : Int)
    (m2 : List (Nat × List Int)), appendSample m k v = some m2 →
    m2.map Prod.fst = m.map Prod.fst := by
  intro m
  induction m with
  | nil => intro k v m2 h; simp [appendSample] at h
  | cons p rest ih =>
    intro k v m2 h
    obtain ⟨k0, l0⟩ := p
    simp only [appendSample] at h
    by_cases hk : k0 = k
    · rw [if_pos hk] at h
      injection h with h2
      subst h2
      simp
    · rw [if_neg hk] at h
      obtain ⟨m3, hm3, rfl⟩ := Option.map_eq_some'.mp h
      simp [ih k v m3 hm3]

/-- The samples-error merge never changes the key sequence, also when it
stops at a missing key. -/
theorem mergeSamples_keys : ∀ (l : List (Nat × Int)) (m : List (Nat × List Int)),
    ((mergeSamples m l).1).map Prod.fst = m.map Prod.fst := by
  intro l
  induction l with
  | nil => intro m; simp [mergeSamples]
  | cons p rest ih =>
    intro m
    obtain ⟨k, v⟩ := p
    simp only [mergeSamples]
    cases ha : appendSample m k v with
    | none => simp
    | some m2 => rw [ih m2, appendSample_keys m k v m2 ha]

theorem sampMerge_keys (cfg : LoopCfg) (st : LoopSt) (out : FoldOut) :
    ((sampMerge cfg st out).1).map Prod.fst = st.sampErr.map Prod.fst := by
  unfold sampMerge
  by_cases hc : cfg.samplesE = true
  · rw [if_pos hc]
    exact mergeSamples_keys out.samples_error st.sampErr
  · rw [if_neg hc]

/-- Characterization of a fold iteration that returns normally. -/
theorem foldStep_ok_spec (cfg : LoopCfg) (ev : Split → Except Unit FoldOut)
    (st : LoopSt) (s : Split) (st2 : LoopSt)
    (h : foldStep cfg ev st s = Except.ok st2) :
    ∃ out, ev s = Except.ok out ∧ (sampMerge cfg st out).2 = true ∧
      st2 = { idx := st.idx + 1,
              resultsAcc := st.resultsAcc ++ [out.result],
              splitsAcc := if cfg.splitsE then st.splitsAcc ++ [s] else st.splitsAcc,
              terrAcc := if cfg.transerrorsE then
                  st.terrAcc ++ [instId cfg.transerrorsE st.idx s]
                else st.terrAcc,
              confAcc := if cfg.confusionE then st.confAcc + out.confusion else st.confAcc,
              tconfAcc := if cfg.tconfusionE then st.tconfAcc + out.training_confusion
                else st.tconfAcc,
              sampErr := (sampMerge cfg st out).1,
              motherTD := if cfg.doExpose then none else st.motherTD,
              lastUsed := some (instId cfg.transerrorsE st.idx s, st.motherTD),
              trace := st.trace ++ [mkFoldEv cfg st s] } := by
  unfold foldStep at h
  cases hev : ev s with
  | error u =>
    rw [hev] at h
    cases h
  | ok out =>
    rw [hev] at h
    dsimp only at h
    by_cases hm : (sampMerge cfg st out).2 = true
    · rw [if_pos hm] at h
      injection h with h2
      exact ⟨out, rfl, hm, h2.symm⟩
    · rw [if_neg hm] at h
      cases h

/-- Characterization of a fold iteration that raises: the trace gains the
fold's event, the samples-error keys are unchanged, and the exception is
either the evaluation's (leaving the attach in place) or the merge's
`KeyError` (after the detach). -/
theorem foldStep_err_spec (cfg : LoopCfg) (ev : Split → Except Unit FoldOut)
    (st : LoopSt) (s : Split) (er : RunErr) (st2 : LoopSt)
    (h : foldStep cfg ev st s = Except.error (er, st2)) :
    st2.trace = st.trace ++ [mkFoldEv cfg st s] ∧
      st2.sampErr.map Prod.fst = st.sampErr.map Prod.fst ∧
      ((er = RunErr.evalErr st.idx ∧
          st2.motherTD = (if cfg.doExpose then s.2 else st.motherTD)) ∨
        (er = RunErr.keyErr st.idx ∧
          st2.motherTD = (if cfg.doExpose then none else st.motherTD))) := by
  unfold foldStep at h
  cases hev : ev s with
  | error u =>
    rw [hev] at h
    injection h with h2
    rw [Prod.mk.injEq] at h2
    obtain ⟨h3, h4⟩ := h2
    subst h3
    subst h4
    exact ⟨rfl, rfl, Or.inl ⟨rfl, rfl⟩⟩
  | ok out =>
    rw [hev] at h
    dsimp only at h
    by_cases hm : (sampMerge cfg st out).2 = true
    · rw [if_pos hm] at h
      cases h
    · rw [if_neg hm] at h
      injection h with h2
      rw [Prod.mk.injEq] at h2
      obtain ⟨h3, h4⟩ := h2
      subst h3
      subst h4
      exact ⟨rfl, sampMerge_keys cfg st out, Or.inr ⟨rfl, rfl⟩⟩

theorem runLoop_nil (cfg : LoopCfg) (ev : Split → Except Unit FoldOut) (st : LoopSt) :
    runLoop cfg ev [] st = Except.ok st := rfl

theorem runLoop_cons (cfg : LoopCfg) (ev : Split → Except Unit FoldOut)
    (s : Split) (rest : List Split) (st : LoopSt) :
    runLoop cfg ev (s :: rest) st =
      match foldStep cfg ev st s with
      | Except.error e => Except.error e
      | Except.ok st2 => runLoop cfg ev rest st2 := rfl

/-- The loop never changes the key sequence of the samples-error
accumulator, on any exit. -/
theorem runLoop_sampErr_keys (cfg : LoopCfg) (ev : Split → Except Unit FoldOut) :
    ∀ (folds : List Split) (st : LoopSt),
    ((stOf (runLoop cfg ev folds st)).sampErr).map Prod.fst
      = st.sampErr.map Prod.fst := by
  intro folds
  induction folds with
  | nil => intro st; rw [runLoop_nil]; rfl
  | cons s rest ih =>
    intro st
    rw [runLoop_cons]
    cases hfs : foldStep cfg ev st s with
    | error e =>
      obtain ⟨er, st2⟩ := e
      have hspec := foldStep_err_spec cfg ev st s er st2 hfs
      simpa [stOf] using hspec.2.1
    | ok st2 =>
      obtain ⟨out, hev, hm, hst2⟩ := foldStep_ok_spec cfg ev st s st2 hfs
      rw [ih st2, hst2]
      exact sampMerge_keys cfg st out

/-- A loop that completes appends exactly one error value per fold, in
fold order, whatever the configuration. -/
theorem runLoop_ok_results (cfg : LoopCfg) (ev : Split → Except Unit FoldOut) :
    ∀ (folds : List Split) (st st2 : LoopSt),
    runLoop cfg ev folds st = Except.ok st2 →
    st2.resultsAcc = st.resultsAcc ++ folds.map (dfltResult ev) := by
  intro folds
  induction folds with
  | nil =>
    intro st st2 h
    rw [runLoop_nil] at h
    injection h with h2
    subst h2
    simp
  | cons s rest ih =>
    intro st st2 h
    rw [runLoop_cons] at h
    cases hfs : foldStep cfg ev st s with
    | error e =>
      rw [hfs] at h
      cases h
    | ok st1 =>
      rw [hfs] at h
      obtain ⟨out, hev, hm, hst1⟩ := foldStep_ok_spec cfg ev st s st1 hfs
      have h2 := ih st1 st2 h
      rw [hst1] at h2
      dsimp only at h2
      rw [h2]
      simp [dfltResult, hev]

theorem lastFold_cons_cons (a b : Split) (l : List Split) :
    lastFold (a :: b :: l) = lastFold (b :: l) := by
  simp [lastFold, List.getLast?_cons_cons]

/-- After a completed loop over at least one fold, the `transerror` local
holds the instance chosen for the final fold. -/
theorem runLoop_ok_lastUsed (cfg : LoopCfg) (ev : Split → Except Unit FoldOut) :
    ∀ (folds : List Split) (st st2 : LoopSt),
    folds ≠ [] → runLoop cfg ev folds st = Except.ok st2 →
    Option.map Prod.fst st2.lastUsed
      = some (instId cfg.transerrorsE (st.idx + folds.length - 1) (lastFold folds)) := by
  intro folds
  induction folds with
  | nil => intro st st2 hne; exact absurd rfl hne
  | cons s rest ih =>
    intro st st2 _ h
    rw [runLoop_cons] at h
    cases hfs : foldStep cfg ev st s with
    | error e =>
      rw [hfs] at h
      cases h
    | ok st1 =>
      rw [hfs] at h
      dsimp only at h
      obtain ⟨out, hev, hm, hst1⟩ := foldStep_ok_spec cfg ev st s st1 hfs
      cases rest with
      | nil =>
        rw [runLoop_nil] at h
        injection h with h2
        subst h2
        rw [hst1]
        simp [lastFold]
      | cons s2 rest2 =>
        have h3 := ih st1 st2 (by simp) h
        rw [hst1] at h3
        dsimp only at h3
        rw [h3, lastFold_cons_cons]
        have harith : st.idx + 1 + (s2 :: rest2).length - 1
            = st.idx + (s :: s2 :: rest2).length - 1 := by
          simp only [List.length_cons]
          omega
        rw [harith]

/-- If the loop propagates a raising evaluation while the test partition is
exposed, the original classifier's `testdataset` slot is left bound to the
failing fold's test partition. -/
theorem runLoop_evalErr (cfg : LoopCfg) (ev : Split → Except Unit FoldOut)
    (hExp : cfg.doExpose = true) :
    ∀ (folds : List Split) (st : LoopSt) (k : Nat) (st2 : LoopSt),
    runLoop cfg ev folds st = Except.error (RunErr.evalErr k, st2) →
    st.idx ≤ k ∧ ∃ s, folds[k - st.idx]? = some s ∧ st2.motherTD = s.2 := by
  intro folds
  induction folds with
  | nil =>
    intro st k st2 h
    rw [runLoop_nil] at h
    cases h
  | cons s rest ih =>
    intro st k st2 h
    rw [runLoop_cons] at h
    cases hfs : foldStep cfg ev st s with
    | error e =>
      obtain ⟨er, stE⟩ := e
      rw [hfs] at h
      injection h with h2
      rw [Prod.mk.injEq] at h2
      obtain ⟨h3, h4⟩ := h2
      subst h4
      obtain ⟨-, -, hdisj⟩ := foldStep_err_spec cfg ev st s er stE hfs
      rcases hdisj with ⟨herr, hTD⟩ | ⟨herr, hTD⟩
      · rw [herr] at h3
        injection h3 with h5
        subst h5
        refine ⟨le_refl _, s, ?_, ?_⟩
        · simp
        · rw [hTD, if_pos hExp]
      · rw [herr] at h3
        cases h3
    | ok st1 =>
      rw [hfs] at h
      dsimp only at h
      obtain ⟨out, hev, hm, hst1⟩ := foldStep_ok_spec cfg ev st s st1 hfs
      obtain ⟨hle, s3, hidx3, hTD3⟩ := ih st1 k st2 h
      rw [hst1] at hle hidx3
      dsimp only at hle hidx3
      constructor
      · omega
      · refine ⟨s3, ?_, hTD3⟩
        have hk : k - st.idx = (k - (st.idx + 1)) + 1 := by omega
        rw [hk, List.getElem?_cons_succ]
        exact hidx3

/-- The trace set down by a fold iteration, on either exit. -/
theorem foldStep_trace (cfg : LoopCfg) (ev : Split → Except Unit FoldOut)
    (st : LoopSt) (s : Split) :
    (stOf (foldStep cfg ev st s)).trace = st.trace ++ [mkFoldEv cfg st s] := by
  unfold foldStep
  cases hev : ev s with
  | error u => rfl
  | ok out =>
    dsimp only
    by_cases hm : (sampMerge cfg st out).2 = true
    · rw [if_pos hm]
      rfl
    · rw [if_neg hm]
      rfl

/-- Every traced fold event records the instance-choice rule and the value
attached to the original classifier. -/
theorem runLoop_traceA (cfg : LoopCfg) (ev : Split → Except Unit FoldOut) :
    ∀ (folds : List Split) (st : LoopSt),
    (∀ e ∈ st.trace, e.usedInstance = instId cfg.transerrorsE e.idx e.split ∧
        e.attachedTD = (if cfg.doExpose then some e.split.2 else none)) →
    ∀ e ∈ (stOf (runLoop cfg ev folds st)).trace,
      e.usedInstance = instId cfg.transerrorsE e.idx e.split ∧
        e.attachedTD = (if cfg.doExpose then some e.split.2 else none) := by
  intro folds
  induction folds with
  | nil => intro st hInv; rw [runLoop_nil]; exact hInv
  | cons s rest ih =>
    intro st hInv
    have hstep : ∀ e ∈ st.trace ++ [mkFoldEv cfg st s],
        e.usedInstance = instId cfg.transerrorsE e.idx e.split ∧
          e.attachedTD = (if cfg.doExpose then some e.split.2 else none) := by
      intro e he
      rcases List.mem_append.mp he with h1 | h1
      · exact hInv e h1
      · rw [List.mem_singleton.mp h1]
        exact ⟨rfl, rfl⟩
    rw [runLoop_cons]
    cases hfs : foldStep cfg ev st s with
    | error e2 =>
      have htr := foldStep_trace cfg ev st s
      rw [hfs] at htr
      intro e he
      apply hstep
      rw [← htr]
      exact he
    | ok st1 =>
      have htr := foldStep_trace cfg ev st s
      rw [hfs] at htr
      apply ih st1
      rw [show (stOf (Except.ok st1)) = st1 from rfl] at htr
      rw [htr]
      exact hstep

/-- When the original classifier's slot starts absent, a deep copy's
classifier never carries a test partition at evaluation time (the copy is
made before the attach and the slot is detached after each evaluation). -/
theorem runLoop_traceB (cfg : LoopCfg) (ev : Split → Except Unit FoldOut) :
    ∀ (folds : List Split) (st : LoopSt),
    st.motherTD = none →
    (∀ e ∈ st.trace, e.usedInstance ≠ TEId.mother → e.evalClfTD = none) →
    ∀ e ∈ (stOf (runLoop cfg ev folds st)).trace,
      e.usedInstance ≠ TEId.mother → e.evalClfTD = none := by
  intro folds
  induction folds with
  | nil => intro st _ hInv; rw [runLoop_nil]; exact hInv
  | cons s rest ih =>
    intro st hTD hInv
    have hnew : (mkFoldEv cfg st s).usedInstance ≠ TEId.mother →
        (mkFoldEv cfg st s).evalClfTD = none := by
      intro hne
      unfold mkFoldEv at hne ⊢
      dsimp only at hne ⊢
      rw [if_neg hne]
      exact hTD
    have hstep : ∀ e ∈ st.trace ++ [mkFoldEv cfg st s],
        e.usedInstance ≠ TEId.mother → e.evalClfTD = none := by
      intro e he
      rcases List.mem_append.mp he with h1 | h1
      · exact hInv e h1
      · rw [List.mem_singleton.mp h1]
        exact hnew
    rw [runLoop_cons]
    cases hfs : foldStep cfg ev st s with
    | error e2 =>
      have htr := foldStep_trace cfg ev st s
      rw [hfs] at htr
      intro e he
      apply hstep
      rw [← htr]
      exact he
    | ok st1 =>
      have htr := foldStep_trace cfg ev st s
      rw [hfs] at htr
      obtain ⟨out, hev, hm, hst1⟩ := foldStep_ok_spec cfg ev st s st1 hfs
      apply ih st1
      · rw [hst1]
        dsimp only
        cases hde : cfg.doExpose with
        | false => rw [if_neg (by simp [hde])]; exact hTD
        | true => rw [if_pos (by simp [hde])]
      · rw [show (stOf (Except.ok st1)) = st1 from rfl] at htr
        rw [htr]
        exact hstep

/-- The observable trace of a run, on either exit. -/
theorem runCVTE_trace (fl : Flags) (ev : Split → Except Unit FoldOut)
    (comb : List Int → Int) (ds : Dataset) (folds : List Split)
    (iSt : StState) (iTD : Option DS) :
    (runCVTE fl ev comb ds folds iSt iTD).trace
      = (stOf (runLoop (loopCfg fl) ev folds (initLoopSt ds iTD))).trace := by
  unfold runCVTE
  cases hr : runLoop (loopCfg fl) ev folds (initLoopSt ds iTD) with
  | error e => rfl
  | ok st =>
    dsimp only
    unfold finishOk
    cases hlu : st.lastUsed with
    | none => rfl
    | some tu => rfl

/-- The samples-error accumulator of a run, on either exit. -/
theorem runCVTE_sampErr (fl : Flags) (ev : Split → Except Unit FoldOut)
    (comb : List Int → Int) (ds : Dataset) (folds : List Split)
    (iSt : StState) (iTD : Option DS) :
    (runCVTE fl ev comb ds folds iSt iTD).sampErr
      = (stOf (runLoop (loopCfg fl) ev folds (initLoopSt ds iTD))).sampErr := by
  unfold runCVTE
  cases hr : runLoop (loopCfg fl) ev folds (initLoopSt ds iTD) with
  | error e => rfl
  | ok st =>
    dsimp only
    unfold finishOk
    cases hlu : st.lastUsed with
    | none => rfl
    | some tu => rfl

/-- Decomposition of a run that returns a value. -/
theorem runCVTE_ok_spec (fl : Flags) (ev : Split → Except Unit FoldOut)
    (comb : List Int → Int) (ds : Dataset) (folds : List Split)
    (iSt : StState) (iTD : Option DS) (v : Int)
    (h : (runCVTE fl ev comb ds folds iSt iTD).result = Except.ok v) :
    ∃ st tu, runLoop (loopCfg fl) ev folds (initLoopSt ds iTD) = Except.ok st ∧
      st.lastUsed = some tu ∧ v = comb st.resultsAcc ∧
      (runCVTE fl ev comb ds folds iSt iTD).teId = tu.1 ∧
      (runCVTE fl ev comb ds folds iSt iTD).teSt
        = (if (terrEnable fl).isEmpty then motherSt0 fl iSt
           else resetEnabledTemporarily (motherSt0 fl iSt)) ∧
      (runCVTE fl ev comb ds folds iSt iTD).resultsAcc = st.resultsAcc := by
  unfold runCVTE at h ⊢
  cases hr : runLoop (loopCfg fl) ev folds (initLoopSt ds iTD) with
  | error e =>
    rw [hr] at h
    cases h
  | ok st =>
    rw [hr] at h
    dsimp only at h ⊢
    unfold finishOk at h ⊢
    cases hlu : st.lastUsed with
    | none =>
      rw [hlu] at h
      cases h
    | some tu =>
      rw [hlu] at h
      dsimp only at h
      injection h with h2
      exact ⟨st, tu, rfl, hlu, h2.symm, rfl, rfl, rfl⟩

/-- Decomposition of a run that propagates a raising fold evaluation. -/
theorem runCVTE_evalErr_spec (fl : Flags) (ev : Split → Except Unit FoldOut)
    (comb : List Int → Int) (ds : Dataset) (folds : List Split)
    (iSt : StState) (iTD : Option DS) (k : Nat)
    (h : (runCVTE fl ev comb ds folds iSt iTD).result
        = Except.error (RunErr.evalErr k)) :
    ∃ st, runLoop (loopCfg fl) ev folds (initLoopSt ds iTD)
        = Except.error (RunErr.evalErr k, st) ∧
      (runCVTE fl ev comb ds folds iSt iTD).motherTD = st.motherTD := by
  unfold runCVTE at h ⊢
  cases hr : runLoop (loopCfg fl) ev folds (initLoopSt ds iTD) with
  | error e =>
    obtain ⟨e1, e2⟩ := e
    rw [hr] at h
    dsimp only [finishErr] at h
    injection h with h2
    subst h2
    exact ⟨e2, rfl, rfl⟩
  | ok st =>
    rw [hr] at h
    dsimp only at h
    unfold finishOk at h
    cases hlu : st.lastUsed with
    | none =>
      rw [hlu] at h
      dsimp only [finishErr] at h
      injection h with h2
      cases h2
    | some tu =>
      rw [hlu] at h
      cases h

/-- The returned value of a run depends only on the loop, not on the
label-mapping attach of lines 233-240. -/
def resultOnly (cfg : LoopCfg) (ev : Split → Except Unit FoldOut)
    (comb : List Int → Int) (folds : List Split) (st0 : LoopSt) : Except RunErr Int :=
  match runLoop cfg ev folds st0 with
  | Except.error e => Except.error e.1
  | Except.ok st =>
    match st.lastUsed with
    | none => Except.error RunErr.unboundLocal
    | some _ => Except.ok (comb st.resultsAcc)

theorem runCVTE_result (fl : Flags) (ev : Split → Except Unit FoldOut)
    (comb : List Int → Int) (ds : Dataset) (folds : List Split)
    (iSt : StState) (iTD : Option DS) :
    (runCVTE fl ev comb ds folds iSt iTD).result
      = resultOnly (loopCfg fl) ev comb folds (initLoopSt ds iTD) := by
  unfold runCVTE resultOnly
  cases hr : runLoop (loopCfg fl) ev folds (initLoopSt ds iTD) with
  | error e => rfl
  | ok st =>
    dsimp only
    unfold finishOk
    cases hlu : st.lastUsed with
    | none => rfl
    | some tu => rfl

/-- C1 (counterexample): with the engine's `confusion` diagnostic enabled,
a run whose fold evaluation raises propagates the exception and leaves the
child TransferError with the temporarily enabled diagnostics still in
place: its enablement bookkeeping is not restored to the pre-run
configuration `⟨[], none⟩` on this exit path. -/
theorem c1_enable_leak_on_exception :
    (runCVTE ⟨false, false, false, true, false, false, false, false⟩
        (fun _ => Except.error ()) (fun l => l.foldl (fun a b => a + b) 0)
        ⟨[0], none⟩ [(some ⟨false, 0⟩, some ⟨false, 1⟩)] ⟨[], none⟩ none).result
        = Except.error (RunErr.evalErr 0) ∧
      (runCVTE ⟨false, false, false, true, false, false, false, false⟩
        (fun _ => Except.error ()) (fun l => l.foldl (fun a b => a + b) 0)
        ⟨[0], none⟩ [(some ⟨false, 0⟩, some ⟨false, 1⟩)] ⟨[], none⟩ none).teSt
        ≠ ⟨[], none⟩ ∧
      (runCVTE ⟨false, false, false, true, false, false, false, false⟩
        (fun _ => Except.error ()) (fun l => l.foldl (fun a b => a + b) 0)
        ⟨[0], none⟩ [(some ⟨false, 0⟩, some ⟨false, 1⟩)] ⟨[], none⟩ none).teSt
        = ⟨[SV.confusion], some []⟩ :=
  ⟨rfl, by decide, rfl⟩

/-- C1 (amended): the temporary enablement override is restored on the
normal-completion exit path — when `_call` returns a value and the child
carried no pending temporary change, the engine's TransferError ends the run
with its pre-run enablement configuration.  (On an exit via exception the
override is not restored; see the counterexample.) -/
theorem c1_enable_restored_on_normal_exit
    (fl : Flags) (ev : Split → Except Unit FoldOut) (comb : List Int → Int)
    (ds : Dataset) (folds : List Split) (iSt : StState) (iTD : Option DS) (v : Int)
    (hsaved : iSt.saved = none)
    (h : (runCVTE fl ev comb ds folds iSt iTD).result = Except.ok v) :
    (runCVTE fl ev comb ds folds iSt iTD).teSt = iSt := by
  obtain ⟨st, tu, -, -, -, -, hteSt, -⟩ := runCVTE_ok_spec fl ev comb ds folds iSt iTD v h
  rw [hteSt]
  unfold motherSt0
  by_cases he : (terrEnable fl).isEmpty = true
  · rw [if_pos he, if_pos he]
  · rw [if_neg he, if_neg he]
    unfold resetEnabledTemporarily changeTemporarily
    dsimp only
    rw [Option.getD_some]
    obtain ⟨en, sv⟩ := iSt
    dsimp only at hsaved
    rw [hsaved]

theorem c1_enable_restored_on_normal_exit_witness :
    (runCVTE ⟨false, false, false, true, false, false, false, false⟩
      (fun _ => Except.ok ⟨2, [], 0, 0⟩) (fun l => l.foldl (fun a b => a + b) 0)
      ⟨[0], none⟩ [(some ⟨false, 0⟩, some ⟨false, 1⟩)] ⟨[], none⟩ none).teSt
      = ⟨[], none⟩ :=
  c1_enable_restored_on_normal_exit
    ⟨false, false, false, true, false, false, false, false⟩
    (fun _ => Except.ok ⟨2, [], 0, 0⟩) (fun l => l.foldl (fun a b => a + b) 0)
    ⟨[0], none⟩ [(some ⟨false, 0⟩, some ⟨false, 1⟩)] ⟨[], none⟩ none 2 rfl rfl

/-- C2: whatever subset of diagnostics is enabled, a `_call` that returns a
value returns the combiner applied exactly once to the sequence of per-fold
error values, one entry per fold in splitter-yield order, and the local
results sequence holds exactly those values regardless of the `results`
flag — so diagnostic toggles never change a returned summary value. -/
theorem c2_result_is_combiner_of_fold_results
    (fl : Flags) (ev : Split → Except Unit FoldOut) (comb : List Int → Int)
    (ds : Dataset) (folds : List Split) (iSt : StState) (iTD : Option DS) (v : Int)
    (h : (runCVTE fl ev comb ds folds iSt iTD).result = Except.ok v) :
    v = comb (folds.map (dfltResult ev)) ∧
      (runCVTE fl ev comb ds folds iSt iTD).resultsAcc
        = folds.map (dfltResult ev) := by
  obtain ⟨st, tu, hr, -, hv, -, -, hres⟩ := runCVTE_ok_spec fl ev comb ds folds iSt iTD v h
  have h2 := runLoop_ok_results (loopCfg fl) ev folds (initLoopSt ds iTD) st hr
  rw [show (initLoopSt ds iTD).resultsAcc = [] from rfl] at h2
  rw [List.nil_append] at h2
  constructor
  · rw [hv, h2]
  · rw [hres, h2]

theorem c2_witness :
    (4 : Int) = (fun l => l.foldl (fun a b => a + b) 0)
        (([((none : Option DS), (none : Option DS)), (none, none)]).map
          (dfltResult (fun _ => Except.ok ⟨2, [], 0, 0⟩))) ∧
      (runCVTE ⟨true, true, false, false, false, false, false, false⟩
        (fun _ => Except.ok ⟨2, [], 0, 0⟩) (fun l => l.foldl (fun a b => a + b) 0)
        ⟨[], none⟩ [((none : Option DS), (none : Option DS)), (none, none)]
        ⟨[], none⟩ none).resultsAcc
        = ([((none : Option DS), (none : Option DS)), (none, none)]).map
            (dfltResult (fun _ => Except.ok ⟨2, [], 0, 0⟩)) :=
  c2_result_is_combiner_of_fold_results
    ⟨true, true, false, false, false, false, false, false⟩
    (fun _ => Except.ok ⟨2, [], 0, 0⟩) (fun l => l.foldl (fun a b => a + b) 0)
    ⟨[], none⟩ [((none : Option DS), (none : Option DS)), (none, none)]
    ⟨[], none⟩ none 4 rfl

/-- C3 (code bug): with zero folds, `_call` raises `UnboundLocalError` at
the rebind `self.__transerror = transerror` (line 224) — `transerror` is a
local assigned only inside the loop body — so the combiner is never
invoked, for every configuration, evaluation, combiner and dataset. -/
theorem c3_zero_folds_unbound_local
    (fl : Flags) (ev : Split → Except Unit FoldOut) (comb : List Int → Int)
    (ds : Dataset) (iSt : StState) (iTD : Option DS) :
    (runCVTE fl ev comb ds [] iSt iTD).result
      = Except.error RunErr.unboundLocal := by
  unfold runCVTE
  rw [runLoop_nil]
  dsimp only
  unfold finishOk
  rw [show (initLoopSt ds iTD).lastUsed = none from rfl]
  rfl

/-- C4: for every traced fold of any run, with `transerrors` enabled the
fold is evaluated by the engine's own (mother) instance exactly when the
fold's first present partition carries a true last-fold marker, and by the
fold's fresh deep copy otherwise; with `transerrors` disabled the engine's
own instance evaluates every fold. -/
theorem c4_instance_choice
    (fl : Flags) (ev : Split → Except Unit FoldOut) (comb : List Int → Int)
    (ds : Dataset) (folds : List Split) (iSt : StState) (iTD : Option DS) (e : FoldEv)
    (he : e ∈ (runCVTE fl ev comb ds folds iSt iTD).trace) :
    e.usedInstance = (if fl.transerrors then
        (if lastsplitOf e.split then TEId.mother else TEId.copyAt e.idx)
      else TEId.mother) := by
  rw [runCVTE_trace] at he
  have h := runLoop_traceA (loopCfg fl) ev folds (initLoopSt ds iTD)
    (by intro e2 he2; exact absurd he2 (by simp [initLoopSt])) e he
  exact h.1

theorem c4_witness :
    (⟨0, (some ⟨true, 0⟩, none), TEId.mother, none, none⟩ : FoldEv).usedInstance
      = TEId.mother :=
  c4_instance_choice ⟨false, false, true, false, false, false, false, false⟩
    (fun _ => Except.ok ⟨1, [], 0, 0⟩) (fun l => l.foldl (fun a b => a + b) 0)
    ⟨[], none⟩ [(some ⟨true, 0⟩, none)] ⟨[], none⟩ none
    ⟨0, (some ⟨true, 0⟩, none), TEId.mother, none, none⟩ (by decide)

/-- C5 (counterexample): with `transerrors` enabled and the splitter
marking fold 0 — not the final fold — as last, the mother instance
evaluates the marked fold, but the instance the engine retains after the
run is the deep copy made for the final fold, not the instance whose
evaluation corresponds to the fold marked last. -/
theorem c5_retained_not_marked_last_instance :
    (runCVTE ⟨false, false, true, false, false, false, false, false⟩
        (fun _ => Except.ok ⟨5, [], 0, 0⟩) (fun l => l.foldl (fun a b => a + b) 0)
        ⟨[], none⟩ [(some ⟨true, 0⟩, some ⟨true, 1⟩), (some ⟨false, 2⟩, some ⟨false, 3⟩)]
        ⟨[], none⟩ none).result = Except.ok 10 ∧
      ((runCVTE ⟨false, false, true, false, false, false, false, false⟩
        (fun _ => Except.ok ⟨5, [], 0, 0⟩) (fun l => l.foldl (fun a b => a + b) 0)
        ⟨[], none⟩ [(some ⟨true, 0⟩, some ⟨true, 1⟩), (some ⟨false, 2⟩, some ⟨false, 3⟩)]
        ⟨[], none⟩ none).trace.map FoldEv.usedInstance)
        = [TEId.mother, TEId.copyAt 1] ∧
      (runCVTE ⟨false, false, true, false, false, false, false, false⟩
        (fun _ => Except.ok ⟨5, [], 0, 0⟩) (fun l => l.foldl (fun a b => a + b) 0)
        ⟨[], none⟩ [(some ⟨true, 0⟩, some ⟨true, 1⟩), (some ⟨false, 2⟩, some ⟨false, 3⟩)]
        ⟨[], none⟩ none).teId ≠ TEId.mother :=
  ⟨rfl, rfl, by decide⟩

/-- C5 (amended): after a run that returns with at least one fold, the
instance the engine retains is the one used on the final processed fold:
the mother instance when `transerrors` is disabled or when the final fold's
first present partition carries a true last-fold marker, and the deep copy
made for the final fold otherwise. -/
theorem c5_retained_is_final_fold_instance
    (fl : Flags) (ev : Split → Except Unit FoldOut) (comb : List Int → Int)
    (ds : Dataset) (folds : List Split) (iSt : StState) (iTD : Option DS) (v : Int)
    (h : (runCVTE fl ev comb ds folds iSt iTD).result = Except.ok v)
    (hne : folds ≠ []) :
    (runCVTE fl ev comb ds folds iSt iTD).teId
      = (if fl.transerrors && !(lastsplitOf (lastFold folds)) then
          TEId.copyAt (folds.length - 1)
        else TEId.mother) := by
  obtain ⟨st, tu, hr, hlu, -, hteId, -, -⟩ := runCVTE_ok_spec fl ev comb ds folds iSt iTD v h
  have h2 := runLoop_ok_lastUsed (loopCfg fl) ev folds (initLoopSt ds iTD) st hne hr
  rw [hlu] at h2
  rw [Option.map_some'] at h2
  injection h2 with h3
  rw [hteId, h3]
  cases ht : fl.transerrors with
  | false => simp [instId, loopCfg, ht]
  | true =>
    cases hl : lastsplitOf (lastFold folds) with
    | false => simp [instId, loopCfg, ht, hl, initLoopSt]
    | true => simp [instId, loopCfg, ht, hl]

theorem c5_amended_witness :
    (runCVTE ⟨false, false, true, false, false, false, false, false⟩
      (fun _ => Except.ok ⟨1, [], 0, 0⟩) (fun l => l.foldl (fun a b => a + b) 0)
      ⟨[], none⟩ [(some ⟨true, 0⟩, none)] ⟨[], none⟩ none).teId = TEId.mother :=
  c5_retained_is_final_fold_instance
    ⟨false, false, true, false, false, false, false, false⟩
    (fun _ => Except.ok ⟨1, [], 0, 0⟩) (fun l => l.foldl (fun a b => a + b) 0)
    ⟨[], none⟩ [(some ⟨true, 0⟩, none)] ⟨[], none⟩ none 1 rfl (by decide)

/-- C6: when the `samples_error` diagnostic is enabled, the key sequence of
the engine's samples-error accumulator equals exactly the dataset's
`origids`, for any fold contents: per-fold entries are appended only to
existing keys and no key outside the dataset's identifiers is ever
added. -/
theorem c6_samples_error_keys
    (fl : Flags) (ev : Split → Except Unit FoldOut) (comb : List Int → Int)
    (ds : Dataset) (folds : List Split) (iSt : StState) (iTD : Option DS)
    (hs : fl.samples_error = true) :
    ((runCVTE fl ev comb ds folds iSt iTD).sampErr).map Prod.fst = ds.origids := by
  rw [runCVTE_sampErr]
  rw [runLoop_sampErr_keys]
  show ((ds.origids.map fun i => (i, ([] : List Int))).map Prod.fst) = ds.origids
  rw [List.map_map]
  rw [show (Prod.fst ∘ fun i : Nat => (i, ([] : List Int))) = id from rfl]
  exact List.map_id ds.origids

theorem c6_samples_error_keys_witness :
    ((runCVTE ⟨false, false, false, false, false, true, false, false⟩
      (fun _ => Except.ok ⟨1, [(3, 7)], 0, 0⟩) (fun l => l.foldl (fun a b => a + b) 0)
      ⟨[3, 4], none⟩ [((none : Option DS), (none : Option DS))]
      ⟨[], none⟩ none).sampErr).map Prod.fst = [3, 4] :=
  c6_samples_error_keys ⟨false, false, false, false, false, true, false, false⟩
    (fun _ => Except.ok ⟨1, [(3, 7)], 0, 0⟩) (fun l => l.foldl (fun a b => a + b) 0)
    ⟨[3, 4], none⟩ [((none : Option DS), (none : Option DS))] ⟨[], none⟩ none rfl

/-- C7: when the classifier has no `testdataset` attribute, enabling
`expose_testdataset` changes nothing at all: the entire observable outcome
— returned value, every diagnostic accumulator, predictor state and trace —
is identical to a run with it disabled. -/
theorem c7_expose_noop_without_slot
    (r sp te c tc se e1 e2 : Bool)
    (ev : Split → Except Unit FoldOut) (comb : List Int → Int)
    (ds : Dataset) (folds : List Split) (iSt : StState) (iTD : Option DS) :
    runCVTE ⟨r, sp, te, c, tc, se, e1, false⟩ ev comb ds folds iSt iTD
      = runCVTE ⟨r, sp, te, c, tc, se, e2, false⟩ ev comb ds folds iSt iTD := rfl

/-- C8: when a confusion diagnostic is enabled, the returned value of
`_call` never depends on the dataset's label mapping: the label-mapping
attach of lines 233-240 runs inside `try/except: pass`, so an absent
mapping (a raising access) is swallowed and the run still returns exactly
what it returns with any present mapping. -/
theorem c8_labels_map_attach_never_raises
    (fl : Flags) (ev : Split → Except Unit FoldOut) (comb : List Int → Int)
    (origids : List Nat) (lm1 lm2 : Option Int) (folds : List Split)
    (iSt : StState) (iTD : Option DS)
    (hc : fl.confusion = true ∨ fl.training_confusion = true) :
    (runCVTE fl ev comb ⟨origids, lm1⟩ folds iSt iTD).result
      = (runCVTE fl ev comb ⟨origids, lm2⟩ folds iSt iTD).result := by
  rw [runCVTE_result, runCVTE_result]
  rfl

theorem c8_witness :
    (runCVTE ⟨false, false, false, true, false, false, false, false⟩
      (fun _ => Except.ok ⟨1, [], 2, 0⟩) (fun l => l.foldl (fun a b => a + b) 0)
      ⟨[], none⟩ [((none : Option DS), (none : Option DS))] ⟨[], none⟩ none).result
      = (runCVTE ⟨false, false, false, true, false, false, false, false⟩
        (fun _ => Except.ok ⟨1, [], 2, 0⟩) (fun l => l.foldl (fun a b => a + b) 0)
        ⟨[], some 42⟩ [((none : Option DS), (none : Option DS))] ⟨[], none⟩ none).result :=
  c8_labels_map_attach_never_raises
    ⟨false, false, false, true, false, false, false, false⟩
    (fun _ => Except.ok ⟨1, [], 2, 0⟩) (fun l => l.foldl (fun a b => a + b) 0)
    [] none (some 42) [((none : Option DS), (none : Option DS))] ⟨[], none⟩ none
    (Or.inl rfl)

/-- C9: with `transerrors` enabled and the test partition exposed, every
fold's test partition is attached to the original classifier — the `clf`
binding taken once before the loop — while a fold evaluated by a deep copy
sees an absent `testdataset` slot on its own classifier: the evaluating
classifier of a copied instance never receives the exposed test
partition. -/
theorem c9_copy_never_sees_testdataset
    (fl : Flags) (ev : Split → Except Unit FoldOut) (comb : List Int → Int)
    (ds : Dataset) (folds : List Split) (iSt : StState) (e : FoldEv)
    (ht : fl.transerrors = true)
    (h1 : fl.clf_hastestdataset = true) (h2 : fl.expose_testdataset = true)
    (he : e ∈ (runCVTE fl ev comb ds folds iSt none).trace) :
    e.attachedTD = some e.split.2 ∧
      (e.usedInstance ≠ TEId.mother → e.evalClfTD = none) := by
  rw [runCVTE_trace] at he
  have hA := runLoop_traceA (loopCfg fl) ev folds (initLoopSt ds none)
    (by intro e2 he2; exact absurd he2 (by simp [initLoopSt])) e he
  have hB := runLoop_traceB (loopCfg fl) ev folds (initLoopSt ds none) rfl
    (by intro e2 he2; exact absurd he2 (by simp [initLoopSt])) e he
  refine ⟨?_, hB⟩
  have hde : (loopCfg fl).doExpose = true := by
    simp [loopCfg, h1, h2]
  rw [hA.2, if_pos hde]

theorem c9_witness :
    (⟨0, (some ⟨false, 0⟩, some ⟨false, 1⟩), TEId.copyAt 0, none,
        some (some ⟨false, 1⟩)⟩ : FoldEv).attachedTD = some (some ⟨false, 1⟩) ∧
      (⟨0, (some ⟨false, 0⟩, some ⟨false, 1⟩), TEId.copyAt 0, none,
        some (some ⟨false, 1⟩)⟩ : FoldEv).evalClfTD = none :=
  ⟨(c9_copy_never_sees_testdataset
      ⟨false, false, true, false, false, false, true, true⟩
      (fun _ => Except.ok ⟨1, [], 0, 0⟩) (fun l => l.foldl (fun a b => a + b) 0)
      ⟨[], none⟩ [(some ⟨false, 0⟩, some ⟨false, 1⟩)] ⟨[], none⟩
      ⟨0, (some ⟨false, 0⟩, some ⟨false, 1⟩), TEId.copyAt 0, none,
        some (some ⟨false, 1⟩)⟩ rfl rfl rfl (by decide)).1,
    (c9_copy_never_sees_testdataset
      ⟨false, false, true, false, false, false, true, true⟩
      (fun _ => Except.ok ⟨1, [], 0, 0⟩) (fun l => l.foldl (fun a b => a + b) 0)
      ⟨[], none⟩ [(some ⟨false, 0⟩, some ⟨false, 1⟩)] ⟨[], none⟩
      ⟨0, (some ⟨false, 0⟩, some ⟨false, 1⟩), TEId.copyAt 0, none,
        some (some ⟨false, 1⟩)⟩ rfl rfl rfl (by decide)).2 (by decide)⟩

/-- C10: with the test partition exposed to a classifier that has the slot,
the slot is cleared only when a fold's evaluation returns normally: if the
evaluation raises, `_call` propagates the exception with the classifier's
`testdataset` slot still bound to that fold's test partition. -/
theorem c10_testdataset_left_bound_on_eval_exception
    (fl : Flags) (ev : Split → Except Unit FoldOut) (comb : List Int → Int)
    (ds : Dataset) (folds : List Split) (iSt : StState) (iTD : Option DS) (k : Nat)
    (h1 : fl.clf_hastestdataset = true) (h2 : fl.expose_testdataset = true)
    (h : (runCVTE fl ev comb ds folds iSt iTD).result
        = Except.error (RunErr.evalErr k)) :
    (runCVTE fl ev comb ds folds iSt iTD).motherTD
      = (folds[k]?).bind Prod.snd := by
  obtain ⟨st, hr, hTD⟩ := runCVTE_evalErr_spec fl ev comb ds folds iSt iTD k h
  have hde : (loopCfg fl).doExpose = true := by
    simp [loopCfg, h1, h2]
  obtain ⟨hle, s, hidx, hmTD⟩ :=
    runLoop_evalErr (loopCfg fl) ev hde folds (initLoopSt ds iTD) k st hr
  rw [hTD, hmTD]
  rw [show (initLoopSt ds iTD).idx = 0 from rfl] at hidx
  rw [Nat.sub_zero] at hidx
  rw [hidx]
  rfl

theorem c10_witness :
    (runCVTE ⟨false, false, false, false, false, false, true, true⟩
      (fun _ => Except.error ()) (fun l => l.foldl (fun a b => a + b) 0)
      ⟨[], none⟩ [(some ⟨false, 0⟩, some ⟨false, 1⟩)] ⟨[], none⟩ none).motherTD
      = some ⟨false, 1⟩ :=
  c10_testdataset_left_bound_on_eval_exception
    ⟨false, false, false, false, false, false, true, true⟩
    (fun _ => Except.error ()) (fun l => l.foldl (fun a b => a + b) 0)
    ⟨[], none⟩ [(some ⟨false, 0⟩, some ⟨false, 1⟩)] ⟨[], none⟩ none 0 rfl rfl rfl

end CVTE
